import Mathlib

/-!
Verification of the sweep-and-intervention orchestration engine of the
`activation_additions` repository (`algebraic_value_editing/sweeps.py`),
as a shallow embedding in Lean 4.

Conventions of the embedding:
* Python floats become `ℚ` (the properties at stake are exact algebraic
  identities about products and arithmetic means, which the code computes
  with the corresponding arithmetic operations).
* The injection-site type (`act_name`, a layer index or hook-point name in
  Python) is an arbitrary type `σ`.
* Fallible code returns `Except`; a raised Python exception is an
  `Except.error` value.
* External collaborators (the tokenizer, the text sampler, the hook
  compiler of `hook_utils`, the `metrics` module) enter as function
  parameters of the embedded operations, mirroring the call sites in
  `sweeps.py`.
* The mutable hook state of the shared model, and the heap cell holding
  the descriptor-set input, are threaded explicitly as a `ModelState`
  value, so that frame conditions become provable statements.
-/

namespace AVESweeps

/-- Modelled from the spec: the content of an Intervention Descriptor
(`RichPrompt` of `algebraic_value_editing.prompt_utils`, a module of this
repository that is not under `src/`): either a token sequence (used when
padding) or a raw text phrase, exactly one of the two forms populated
(hence a sum type). -/
inductive RPContent where
  | tokens (toks : List Nat) : RPContent
  | phrase (text : String) : RPContent
deriving DecidableEq, Repr

/-- Modelled from the spec: the Intervention Descriptor (`RichPrompt` of
`algebraic_value_editing.prompt_utils`, not under `src/`): an injection
site (`act_name`), a signed scalar coefficient, and a content source.
Immutable once constructed. -/
structure RichPrompt (σ : Type) where
  coeff : ℚ
  act_name : σ
  content : RPContent
deriving DecidableEq, Repr

/-- Tokenization capability of the external model collaborator, as used by
`make_rich_prompts`: `model.to_tokens` (the leading batch dimension of the
returned tensor is dropped immediately by the code via `[0]`, so a plain
token list suffices) and `model.to_single_token`. -/
structure ModelTok where
  to_tokens : String → List Nat
  to_single_token : String → Nat

/-- Right padding of one token sequence to `max_len` with the filler token,
as performed by `torch.nn.functional.pad(tokens, (0, max_len - n))` in
`make_rich_prompts` (sweeps.py lines 71-79); `torch` clamps the pad amount
at zero exactly as `Nat` subtraction does. -/
def padTokens (pad_token max_len : Nat) (toks : List Nat) : List Nat :=
  toks ++ List.replicate (max_len - toks.length) pad_token

/-- Group-local padding step of `make_rich_prompts` (sweeps.py lines
62-79): compute every phrase's token count, take the maximum over the
group (Python `max`, which raises on an empty list, hence `none`), and
right-pad every sequence to that maximum. -/
def padGroupTokens (pad_token : Nat) (tokens_list : List (List Nat)) :
    Option (List (List Nat)) :=
  match (tokens_list.map List.length).max? with
  | none => none
  | some max_len => some (tokens_list.map (padTokens pad_token max_len))

/-- One row of the `DataFrame` returned by `make_rich_prompts`: the built
descriptor list plus the provenance inputs that generated it (sweeps.py
lines 101-108). -/
structure MRPRow (σ : Type) where
  rich_prompts : List (RichPrompt σ)
  phrases : List (String × ℚ)
  act_name : σ
  coeff : ℚ
deriving DecidableEq, Repr

/-- Body of the triple loop of `make_rich_prompts` (sweeps.py lines
60-108), producing the row for one (phrase-group, act_name, coeff) element
of the cross product.  In the padding branch the phrases are tokenized,
padded group-locally (`padGroupTokens`) and the descriptors built from the
padded tokens; otherwise the descriptors are built from the raw phrase
strings.  In both branches the descriptor coefficient is
`init_coeff * coeff` and the site is `act_name`. -/
def mrpBody {σ : Type} (pad : Bool) (model : Option ModelTok)
    (phrases_this : List (String × ℚ)) (act_name : σ) (coeff : ℚ) :
    Except String (MRPRow σ) :=
  match pad, model with
  | true, some m =>
    let pad_token : Nat := m.to_single_token " "
    let tokens_list : List (List Nat) :=
      phrases_this.map fun pc => m.to_tokens pc.1
    match padGroupTokens pad_token tokens_list with
    | none => Except.error "max() arg is an empty sequence"
    | some padded =>
      Except.ok
        { rich_prompts :=
            (phrases_this.zip padded).map fun pt =>
              { coeff := pt.1.2 * coeff
                act_name := act_name
                content := RPContent.tokens pt.2 }
          phrases := phrases_this
          act_name := act_name
          coeff := coeff }
  | true, none =>
    -- unreachable from `make_rich_prompts`, which asserts first
    Except.error "model must be provided if pad==True"
  | false, _ =>
    Except.ok
      { rich_prompts :=
          phrases_this.map fun pc =>
            { coeff := pc.2 * coeff
              act_name := act_name
              content := RPContent.phrase pc.1 }
        phrases := phrases_this
        act_name := act_name
        coeff := coeff }

/-- The full cross product iterated by the three nested `for` loops of
`make_rich_prompts` (sweeps.py lines 57-59), in loop order. -/
def crossTriples {σ : Type} (phrases : List (List (String × ℚ)))
    (act_names : List σ) (coeffs : List ℚ) :
    List (List (String × ℚ) × σ × ℚ) :=
  phrases.flatMap fun g => act_names.flatMap fun a => coeffs.map fun c => (g, a, c)

/-- Run an `Except`-valued body over a list, accumulating the produced
values in order and propagating the first raised error, exactly as a
Python `for` loop appending to `rows` does. -/
def mapExcept {α β ε : Type} (f : α → Except ε β) : List α → Except ε (List β)
  | [] => Except.ok []
  | x :: xs =>
    match f x with
    | Except.error e => Except.error e
    | Except.ok y =>
      match mapExcept f xs with
      | Except.error e => Except.error e
      | Except.ok ys => Except.ok (y :: ys)

/-- Embedding of `make_rich_prompts` (sweeps.py lines 31-110): assert that
a model is provided whenever padding is requested (raising `AssertionError`
before any loop work otherwise), then run the triple cross-product loop,
returning the list of produced rows (the `DataFrame`). -/
def make_rich_prompts {σ : Type} (phrases : List (List (String × ℚ)))
    (act_names : List σ) (coeffs : List ℚ) (pad : Bool)
    (model : Option ModelTok) : Except String (List (MRPRow σ)) :=
  match pad, model with
  | true, none => Except.error "model must be provided if pad==True"
  | _, _ =>
    mapExcept (fun gac => mrpBody pad model gac.1 gac.2.1 gac.2.2)
      (crossTriples phrases act_names coeffs)

theorem mapExcept_ok_iff {α β ε : Type} (f : α → Except ε β) :
    ∀ (l : List α) (ys : List β),
      mapExcept f l = Except.ok ys ↔
        List.Forall₂ (fun x y => f x = Except.ok y) l ys := by
  intro l
  induction l with
  | nil =>
    intro ys
    constructor
    · intro h
      cases ys with
      | nil => exact List.Forall₂.nil
      | cons y ys => simp [mapExcept] at h
    · intro h
      cases h
      rfl
  | cons x xs ih =>
    intro ys
    constructor
    · intro h
      unfold mapExcept at h
      cases hx : f x with
      | error e => rw [hx] at h; exact absurd h (by simp)
      | ok y =>
        rw [hx] at h
        cases hxs : mapExcept f xs with
        | error e => rw [hxs] at h; exact absurd h (by simp)
        | ok ys' =>
          rw [hxs] at h
          cases h
          exact List.Forall₂.cons hx ((ih ys').mp hxs)
    · intro h
      cases h with
      | cons hx hxs =>
        unfold mapExcept
        rw [hx, (ih _).mpr hxs]

theorem mapExcept_total_ok {α β ε : Type} (f : α → Except ε β) (l : List α)
    (h : ∀ x ∈ l, ∃ y, f x = Except.ok y) :
    ∃ ys, mapExcept f l = Except.ok ys := by
  induction l with
  | nil => exact ⟨[], rfl⟩
  | cons x xs ih =>
    obtain ⟨y, hy⟩ := h x (List.mem_cons_self x xs)
    obtain ⟨ys, hys⟩ := ih fun z hz => h z (List.mem_cons_of_mem x hz)
    exact ⟨y :: ys, by unfold mapExcept; rw [hy, hys]⟩

theorem forall₂_exists_of_mem {α β : Type} {R : α → β → Prop}
    {l : List α} {ys : List β} (h : List.Forall₂ R l ys) :
    ∀ x ∈ l, ∃ y, R x y := by
  induction h with
  | nil => intro x hx; exact absurd hx (List.not_mem_nil x)
  | cons hr _ ih =>
    intro x hx
    rcases List.mem_cons.mp hx with hx | hx
    · exact ⟨_, hx ▸ hr⟩
    · exact ih x hx

theorem length_crossTriples {σ : Type} (phrases : List (List (String × ℚ)))
    (act_names : List σ) (coeffs : List ℚ) :
    (crossTriples phrases act_names coeffs).length =
      phrases.length * act_names.length * coeffs.length := by
  have inner : ∀ g : List (String × ℚ),
      (act_names.flatMap fun a => coeffs.map fun c => (g, a, c)).length =
        act_names.length * coeffs.length := by
    intro g
    induction act_names with
    | nil => simp
    | cons a as ih =>
      simp only [List.flatMap_cons, List.length_append, List.length_map, ih,
        List.length_cons]
      ring
  induction phrases with
  | nil => simp [crossTriples]
  | cons g gs ih =>
    simp only [crossTriples, List.flatMap_cons, List.length_append] at *
    rw [inner g, ih]
    simp only [List.length_cons]
    ring

theorem mem_crossTriples {σ : Type} {phrases : List (List (String × ℚ))}
    {act_names : List σ} {coeffs : List ℚ}
    {g : List (String × ℚ)} {a : σ} {c : ℚ}
    (hg : g ∈ phrases) (ha : a ∈ act_names) (hc : c ∈ coeffs) :
    (g, a, c) ∈ crossTriples phrases act_names coeffs := by
  unfold crossTriples
  exact List.mem_flatMap_of_mem hg
    (List.mem_flatMap_of_mem ha (List.mem_map_of_mem (fun c => (g, a, c)) hc))

theorem of_mem_crossTriples {σ : Type} {phrases : List (List (String × ℚ))}
    {act_names : List σ} {coeffs : List ℚ}
    {g : List (String × ℚ)} {a : σ} {c : ℚ}
    (h : (g, a, c) ∈ crossTriples phrases act_names coeffs) :
    g ∈ phrases ∧ a ∈ act_names ∧ c ∈ coeffs := by
  unfold crossTriples at h
  rcases List.mem_flatMap.mp h with ⟨g', hg', h⟩
  rcases List.mem_flatMap.mp h with ⟨a', ha', h⟩
  rcases List.mem_map.mp h with ⟨c', hc', h⟩
  obtain ⟨rfl, rfl, rfl⟩ := Prod.mk.injEq .. ▸ h
  exact ⟨hg', ha', hc'⟩

theorem forall₂_map_self {α δ : Type} (R : α → δ → Prop) (f : α → δ)
    (g : List α) (hR : ∀ x ∈ g, R x (f x)) : List.Forall₂ R g (g.map f) := by
  induction g with
  | nil => exact List.Forall₂.nil
  | cons x g' ih =>
    exact List.Forall₂.cons (hR x (List.mem_cons_self x g'))
      (ih fun z hz => hR z (List.mem_cons_of_mem x hz))

theorem forall₂_zip_map_map {α β γ δ : Type} (t : α → β) (p : β → γ)
    (f : α × γ → δ) (R : α → δ → Prop) (g : List α)
    (hR : ∀ x ∈ g, R x (f (x, p (t x)))) :
    List.Forall₂ R g ((g.zip ((g.map t).map p)).map f) := by
  induction g with
  | nil => exact List.Forall₂.nil
  | cons x g' ih =>
    exact List.Forall₂.cons (hR x (List.mem_cons_self x g'))
      (ih fun z hz => hR z (List.mem_cons_of_mem x hz))

theorem length_padTokens (pad_token max_len : Nat) (toks : List Nat) :
    (padTokens pad_token max_len toks).length =
      toks.length + (max_len - toks.length) := by
  simp [padTokens]

theorem le_of_mem_max? {l : List Nat} {M : Nat} (h : l.max? = some M) :
    ∀ x ∈ l, x ≤ M :=
  (List.max?_le_iff (fun _ _ _ => Nat.max_le) h).mp (Nat.le_refl M)

theorem padTokens_of_length_eq (pad_token max_len : Nat) (toks : List Nat)
    (h : toks.length = max_len) : padTokens pad_token max_len toks = toks := by
  unfold padTokens
  rw [h, Nat.sub_self]
  simp

theorem max?_of_all_eq {l : List Nat} {M : Nat} (hne : l ≠ [])
    (hall : ∀ x ∈ l, x = M) : l.max? = some M := by
  rw [List.max?_eq_some_iff (fun a => Nat.le_refl a)
    (fun a b => max_choice a b) (fun _ _ _ => Nat.max_le)]
  cases l with
  | nil => exact absurd rfl hne
  | cons x xs =>
    constructor
    · have := hall x (List.mem_cons_self x xs)
      rw [← this]
      exact List.mem_cons_self x xs
    · intro b hb
      rw [hall b hb]

theorem mrpBody_ok_spec {σ : Type} (pad : Bool) (model : Option ModelTok)
    (g : List (String × ℚ)) (a : σ) (c : ℚ) (row : MRPRow σ)
    (h : mrpBody pad model g a c = Except.ok row) :
    row.act_name = a ∧ row.coeff = c ∧ row.phrases = g ∧
    List.Forall₂ (fun pc rp =>
      rp.coeff = pc.2 * c ∧ rp.act_name = a) g row.rich_prompts := by
  cases pad with
  | false =>
    simp only [mrpBody, Except.ok.injEq] at h
    subst h
    refine ⟨rfl, rfl, rfl, ?_⟩
    exact forall₂_map_self _ _ g (fun x _ => ⟨rfl, rfl⟩)
  | true =>
    cases model with
    | none => simp [mrpBody] at h
    | some m =>
      simp only [mrpBody] at h
      cases hpg : padGroupTokens (m.to_single_token " ")
          (g.map fun pc => m.to_tokens pc.1) with
      | none => rw [hpg] at h; exact absurd h (by simp)
      | some padded =>
        rw [hpg] at h
        unfold padGroupTokens at hpg
        cases hmax : ((g.map fun pc => m.to_tokens pc.1).map List.length).max? with
        | none => rw [hmax] at hpg; exact absurd hpg (by simp)
        | some max_len =>
          rw [hmax] at hpg
          simp only [Option.some.injEq] at hpg
          subst hpg
          simp only [Except.ok.injEq] at h
          subst h
          refine ⟨rfl, rfl, rfl, ?_⟩
          exact forall₂_zip_map_map _ _ _ _ g (fun x _ => ⟨rfl, rfl⟩)

/-- C1: for every input of phrase-groups, sites, and outer coefficients on
which `make_rich_prompts` returns a `DataFrame`, the frame has exactly
`|groups| * |sites| * |coeffs|` rows, one per element (in order) of the
full cross product, and in every produced descriptor set each descriptor's
effective coefficient is its base coefficient times the element's outer
coefficient and each descriptor's site is the element's site. -/
theorem make_rich_prompts_cross_product {σ : Type}
    (phrases : List (List (String × ℚ))) (act_names : List σ)
    (coeffs : List ℚ) (pad : Bool) (model : Option ModelTok)
    (rows : List (MRPRow σ))
    (h : make_rich_prompts phrases act_names coeffs pad model = Except.ok rows) :
    rows.length = phrases.length * act_names.length * coeffs.length ∧
    List.Forall₂ (fun gac row =>
      row.act_name = gac.2.1 ∧ row.coeff = gac.2.2 ∧ row.phrases = gac.1 ∧
      List.Forall₂ (fun pc rp =>
        rp.coeff = pc.2 * gac.2.2 ∧ rp.act_name = gac.2.1)
        gac.1 row.rich_prompts)
      (crossTriples phrases act_names coeffs) rows := by
  have hmap : mapExcept (fun gac => mrpBody pad model gac.1 gac.2.1 gac.2.2)
      (crossTriples phrases act_names coeffs) = Except.ok rows := by
    cases pad with
    | false => exact h
    | true =>
      cases model with
      | none => simp [make_rich_prompts] at h
      | some m => exact h
  have hF := (mapExcept_ok_iff _ _ _).mp hmap
  constructor
  · rw [← hF.length_eq, length_crossTriples]
  · exact hF.imp fun gac row hb => mrpBody_ok_spec pad model _ _ _ _ hb

def c1row : MRPRow Nat :=
  { rich_prompts := [{ coeff := 1 * 2, act_name := 0, content := RPContent.phrase "A" }]
    phrases := [("A", 1)]
    act_name := 0
    coeff := 2 }

/-- Witness for C1 at the concrete input of one group, one site and one
coefficient. -/
theorem make_rich_prompts_cross_product_witness :
    ([c1row].length = 1 * 1 * 1) ∧
    List.Forall₂ (fun gac row =>
      row.act_name = gac.2.1 ∧ row.coeff = gac.2.2 ∧ row.phrases = gac.1 ∧
      List.Forall₂ (fun pc rp =>
        rp.coeff = pc.2 * gac.2.2 ∧ rp.act_name = gac.2.1)
        gac.1 row.rich_prompts)
      (crossTriples [[("A", 1)]] [0] [2]) [c1row] :=
  make_rich_prompts_cross_product [[("A", 1)]] [0] [2] false none [c1row] (by rfl)

/-- C6: calling the Descriptor-Set Builder with padding requested but no
model reference raises the configuration error eagerly: the result is the
assertion error for every choice of the remaining inputs, before any
cross-product expansion and with no descriptor set produced. -/
theorem make_rich_prompts_pad_without_model {σ : Type}
    (phrases : List (List (String × ℚ))) (act_names : List σ)
    (coeffs : List ℚ) :
    make_rich_prompts phrases act_names coeffs true none =
      Except.error "model must be provided if pad==True" := rfl

/-- C5: in padding mode, every produced descriptor's token sequence is the
phrase's tokenization right-padded with the filler token
(`model.to_single_token " "`) to exactly the maximum token count of its own
phrase-group; the pad length is determined by that group alone. -/
theorem make_rich_prompts_padding_groupwise {σ : Type}
    (phrases : List (List (String × ℚ))) (act_names : List σ)
    (coeffs : List ℚ) (m : ModelTok) (rows : List (MRPRow σ))
    (h : make_rich_prompts phrases act_names coeffs true (some m) =
      Except.ok rows) :
    List.Forall₂ (fun gac row =>
      ∃ max_len,
        (gac.1.map fun pc => (m.to_tokens pc.1).length).max? = some max_len ∧
        List.Forall₂ (fun pc rp =>
          rp.content = RPContent.tokens
            (padTokens (m.to_single_token " ") max_len (m.to_tokens pc.1)) ∧
          (padTokens (m.to_single_token " ") max_len (m.to_tokens pc.1)).length
            = max_len)
          gac.1 row.rich_prompts)
      (crossTriples phrases act_names coeffs) rows := by
  have hF := (mapExcept_ok_iff _ _ _).mp h
  refine hF.imp fun gac row hb => ?_
  obtain ⟨g, a, c⟩ := gac
  simp only [mrpBody] at hb
  cases hpg : padGroupTokens (m.to_single_token " ")
      (g.map fun pc => m.to_tokens pc.1) with
  | none => rw [hpg] at hb; exact absurd hb (by simp)
  | some padded =>
    rw [hpg] at hb
    unfold padGroupTokens at hpg
    cases hmax : ((g.map fun pc => m.to_tokens pc.1).map List.length).max? with
    | none => rw [hmax] at hpg; exact absurd hpg (by simp)
    | some max_len =>
      rw [hmax] at hpg
      simp only [Option.some.injEq] at hpg
      subst hpg
      simp only [Except.ok.injEq] at hb
      subst hb
      refine ⟨max_len, ?_, ?_⟩
      · simpa [List.map_map, Function.comp] using hmax
      · refine forall₂_zip_map_map _ _ _ _ g (fun pc hpc => ⟨rfl, ?_⟩)
        have hmem : (m.to_tokens pc.1).length ∈
            (g.map fun pc => m.to_tokens pc.1).map List.length := by
          rw [List.map_map]
          exact List.mem_map_of_mem _ hpc
        have hle := le_of_mem_max? hmax _ hmem
        rw [length_padTokens]
        exact Nat.add_sub_cancel' hle

def toyTok : ModelTok :=
  { to_tokens := fun s => List.replicate s.length 1
    to_single_token := fun _ => 0 }

def c5rows : List (MRPRow Nat) :=
  [{ rich_prompts :=
      [{ coeff := 1 * 1, act_name := 0, content := RPContent.tokens [1, 0] },
       { coeff := 1 * 1, act_name := 0, content := RPContent.tokens [1, 1] }]
     phrases := [("A", 1), ("AB", 1)]
     act_name := 0
     coeff := 1 }]

/-- Witness for C5 at a concrete two-phrase group of token lengths 1 and 2. -/
theorem make_rich_prompts_padding_groupwise_witness :
    List.Forall₂ (fun gac row =>
      ∃ max_len,
        (gac.1.map fun pc => (toyTok.to_tokens pc.1).length).max? = some max_len ∧
        List.Forall₂ (fun pc rp =>
          rp.content = RPContent.tokens
            (padTokens (toyTok.to_single_token " ") max_len
              (toyTok.to_tokens pc.1)) ∧
          (padTokens (toyTok.to_single_token " ") max_len
            (toyTok.to_tokens pc.1)).length = max_len)
          gac.1 row.rich_prompts)
      (crossTriples [[("A", 1), ("AB", 1)]] [0] [1]) c5rows :=
  make_rich_prompts_padding_groupwise [[("A", 1), ("AB", 1)]] [0] [1]
    toyTok c5rows (by rfl)

/-- C7: the group-local right-padding step is idempotent: applied to token
sequences it has itself already padded to the group maximum, it returns
them unchanged (padding a phrase-group twice equals padding it once). -/
theorem padGroupTokens_idempotent (pad_token : Nat)
    (tl tl' : List (List Nat))
    (h : padGroupTokens pad_token tl = some tl') :
    padGroupTokens pad_token tl' = some tl' := by
  unfold padGroupTokens at h
  cases hmax : (tl.map List.length).max? with
  | none => rw [hmax] at h; exact absurd h (by simp)
  | some max_len =>
    rw [hmax] at h
    simp only [Option.some.injEq] at h
    subst h
    have hne : tl ≠ [] := by
      intro hnil
      subst hnil
      simp at hmax
    have hlen : ∀ x ∈ (tl.map (padTokens pad_token max_len)).map List.length,
        x = max_len := by
      intro x hx
      rw [List.map_map] at hx
      rcases List.mem_map.mp hx with ⟨toks, htoks, rfl⟩
      have hmem : toks.length ∈ tl.map List.length :=
        List.mem_map_of_mem _ htoks
      have hle := le_of_mem_max? hmax _ hmem
      simp only [Function.comp_apply]
      rw [length_padTokens]
      exact Nat.add_sub_cancel' hle
    have hne' : (tl.map (padTokens pad_token max_len)).map List.length ≠ [] := by
      simp only [ne_eq, List.map_eq_nil_iff]
      exact hne
    unfold padGroupTokens
    rw [max?_of_all_eq hne' hlen]
    show some ((tl.map (padTokens pad_token max_len)).map
      (padTokens pad_token max_len)) = some (tl.map (padTokens pad_token max_len))
    refine congrArg some ?_
    have hfix : ∀ x ∈ tl.map (padTokens pad_token max_len),
        padTokens pad_token max_len x = x := by
      intro x hx
      rcases List.mem_map.mp hx with ⟨toks, htoks, rfl⟩
      have hle := le_of_mem_max? hmax _ (List.mem_map_of_mem List.length htoks)
      refine padTokens_of_length_eq _ _ _ ?_
      rw [length_padTokens]
      exact Nat.add_sub_cancel' hle
    calc (tl.map (padTokens pad_token max_len)).map (padTokens pad_token max_len)
        = (tl.map (padTokens pad_token max_len)).map id :=
          List.map_congr_left fun x hx => hfix x hx
      _ = tl.map (padTokens pad_token max_len) :=
          List.map_id _

/-- Witness for C7 at a concrete group of token lengths 1 and 2. -/
theorem padGroupTokens_idempotent_witness :
    padGroupTokens 0 [[1, 0], [2, 3]] = some [[1, 0], [2, 3]] :=
  padGroupTokens_idempotent 0 [[1], [2, 3]] [[1, 0], [2, 3]] (by rfl)

/-- C10 counterexample: an input whose phrase-group list contains an empty
group but whose site list is empty returns an (empty) `DataFrame`
successfully instead of failing, because the loop body computing the
group maximum never executes. -/
theorem make_rich_prompts_empty_group_counterexample :
    make_rich_prompts (σ := Nat) [[]] [] [(1 : ℚ)] true (some toyTok) =
      Except.ok [] := rfl

/-- C10 (amended): in padding mode, provided the site list and the
coefficient list are both non-empty, an input whose phrase-group list
contains an empty group makes the group-maximum computation fail, and no
`DataFrame` is returned; under the precondition that every group is
non-empty the builder is total. -/
theorem make_rich_prompts_empty_group_spec {σ : Type}
    (phrases : List (List (String × ℚ))) (act_names : List σ)
    (coeffs : List ℚ) (m : ModelTok) :
    (act_names ≠ [] → coeffs ≠ [] → [] ∈ phrases →
      ∀ rows, make_rich_prompts phrases act_names coeffs true (some m) ≠
        Except.ok rows) ∧
    ((∀ g ∈ phrases, g ≠ []) →
      ∃ rows, make_rich_prompts phrases act_names coeffs true (some m) =
        Except.ok rows) := by
  constructor
  · intro hA hC hg rows h
    have hF := (mapExcept_ok_iff _ _ _).mp h
    rcases List.exists_mem_of_ne_nil act_names hA with ⟨a, ha⟩
    rcases List.exists_mem_of_ne_nil coeffs hC with ⟨c, hc⟩
    have hmem := mem_crossTriples (σ := σ) hg ha hc
    rcases forall₂_exists_of_mem hF _ hmem with ⟨row, hrow⟩
    simp [mrpBody, padGroupTokens] at hrow
  · intro hgs
    apply mapExcept_total_ok
    rintro ⟨g, a, c⟩ hmem
    have hg := (of_mem_crossTriples hmem).1
    have hne := hgs g hg
    cases hmax : ((g.map fun pc => m.to_tokens pc.1).map List.length).max? with
    | none =>
      rw [List.max?_eq_none_iff] at hmax
      simp only [List.map_eq_nil_iff] at hmax
      exact absurd hmax hne
    | some max_len =>
      have hpg : padGroupTokens (m.to_single_token " ")
          (g.map fun pc => m.to_tokens pc.1) =
          some ((g.map fun pc => m.to_tokens pc.1).map
            (padTokens (m.to_single_token " ") max_len)) := by
        unfold padGroupTokens
        rw [hmax]
      have hbody : mrpBody true (some m) g a c = Except.ok
          { rich_prompts :=
              (g.zip ((g.map fun pc => m.to_tokens pc.1).map
                (padTokens (m.to_single_token " ") max_len))).map fun pt =>
                  { coeff := pt.1.2 * c
                    act_name := a
                    content := RPContent.tokens pt.2 }
            phrases := g
            act_name := a
            coeff := c } := by
        simp only [mrpBody, hpg]
      exact ⟨_, hbody⟩

/-- Witness for C10 (amended): the failing branch at a concrete input with
an empty group present, and the total branch at a concrete input with all
groups non-empty. -/
theorem make_rich_prompts_empty_group_spec_witness :
    (make_rich_prompts (σ := Nat) [[], [("A", (1 : ℚ))]] [0] [(1 : ℚ)] true
      (some toyTok) ≠ Except.ok []) ∧
    (∃ rows, make_rich_prompts (σ := Nat) [[("A", (1 : ℚ))]] [0] [(1 : ℚ)] true
      (some toyTok) = Except.ok rows) :=
  ⟨(make_rich_prompts_empty_group_spec _ _ _ _).1 (by simp) (by simp)
      (by simp) [],
   (make_rich_prompts_empty_group_spec _ _ _ _).2 (by simp)⟩

/-- Mutable state threaded through the sweep operations: the shared
model's hook mapping (`model.add_hook` / `model.remove_all_hook_fns` in
`transformer_lens`, an append-only registry keyed by site name), together
with the heap cell holding the descriptor-set input (`rich_prompts`, the
iterable handed to the sweep).  Threading the cell explicitly makes frame
conditions (the sweep never writes it) provable statements. -/
structure ModelState (σ F : Type) where
  hooks : List (σ × F)
  store : List (List (RichPrompt σ))

/-- Errors escaping a sweep operation: either an exception raised by the
wrapped generation/metric call, or the `ValueError` that `pd.concat`
raises on an empty list of frames. -/
inductive PandasError (E : Type) where
  | raised (e : E) : PandasError E
  | emptyConcat : PandasError E
deriving DecidableEq, Repr

/-- Loop body of `sweep_over_metrics` (sweeps.py lines 254-268), one
iteration per descriptor set: compile the hook functions
(`hook_utils.hook_fns_from_rich_prompts`, passed here as the parameter
`hook_fns_from_rich_prompts`), clear the model's hooks, install the
compiled ones, run `metrics.add_metric_cols` (the parameter
`add_metric_cols`, which reads the live hook state as a side channel and
may raise), tag the resulting rows with the descriptor-set index, and
clear the hooks again.  There is no `try/finally` in the source: when
`add_metric_cols` raises, the error propagates with the hooks still
installed. -/
def sweep_over_metrics_loop {σ F R E : Type}
    (hook_fns_from_rich_prompts : List (RichPrompt σ) → List (σ × F))
    (add_metric_cols : List (σ × F) → List String → Except E (List R))
    (texts : List String) :
    List (List (RichPrompt σ)) → Nat → ModelState σ F →
      ModelState σ F × Except E (List (List (R × Nat)))
  | [], _, st => (st, Except.ok [])
  | rich_prompts_this :: rest, index, st =>
    let hook_fns := hook_fns_from_rich_prompts rich_prompts_this
    -- model.remove_all_hook_fns()
    let st1 : ModelState σ F := { st with hooks := [] }
    -- for act_name, hook_fn in hook_fns.items(): model.add_hook(...)
    let st2 : ModelState σ F := { st1 with hooks := st1.hooks ++ hook_fns }
    match add_metric_cols st2.hooks texts with
    | Except.error e => (st2, Except.error e)
    | Except.ok patched_df =>
      -- patched_df["rich_prompt_index"] = index; patched_list.append(...)
      let tagged := patched_df.map fun r => (r, index)
      -- model.remove_all_hook_fns()
      let st3 : ModelState σ F := { st2 with hooks := [] }
      match sweep_over_metrics_loop hook_fns_from_rich_prompts add_metric_cols
          texts rest (index + 1) st3 with
      | (stF, Except.error e) => (stF, Except.error e)
      | (stF, Except.ok rest_dfs) => (stF, Except.ok (tagged :: rest_dfs))

/-- Embedding of `sweep_over_metrics` (sweeps.py lines 211-272): iterate
the loop over the descriptor sets read from the state's store, then
concatenate the accumulated frames (`pd.concat` raises `ValueError` when
the list is empty; the trailing `.reset_index` only adds a positional
`text_index` column and is not modelled). -/
def sweep_over_metrics {σ F R E : Type}
    (hook_fns_from_rich_prompts : List (RichPrompt σ) → List (σ × F))
    (add_metric_cols : List (σ × F) → List String → Except E (List R))
    (texts : List String) (st : ModelState σ F) :
    ModelState σ F × Except (PandasError E) (List (R × Nat)) :=
  match sweep_over_metrics_loop hook_fns_from_rich_prompts add_metric_cols
      texts st.store 0 st with
  | (stF, Except.error e) => (stF, Except.error (PandasError.raised e))
  | (stF, Except.ok patched_list) =>
    match patched_list with
    | [] => (stF, Except.error PandasError.emptyConcat)
    | _ => (stF, Except.ok patched_list.flatten)

theorem sweep_over_metrics_loop_ok {σ F R E : Type}
    (hff : List (RichPrompt σ) → List (σ × F))
    (amc : List (σ × F) → List String → Except E (List R))
    (texts : List String) :
    ∀ (rps : List (List (RichPrompt σ))) (index : Nat) (st stF : ModelState σ F)
      (dfs : List (List (R × Nat))),
      sweep_over_metrics_loop hff amc texts rps index st = (stF, Except.ok dfs) →
      (rps = [] ∧ stF = st ∧ dfs = []) ∨ stF.hooks = [] := by
  intro rps
  induction rps with
  | nil =>
    intro index st stF dfs h
    simp only [sweep_over_metrics_loop, Prod.mk.injEq, Except.ok.injEq] at h
    exact Or.inl ⟨rfl, h.1.symm, h.2.symm⟩
  | cons rp rest ih =>
    intro index st stF dfs h
    simp only [sweep_over_metrics_loop] at h
    cases hamc : amc ([] ++ hff rp) texts with
    | error e =>
      rw [hamc] at h
      simp at h
    | ok patched_df =>
      rw [hamc] at h
      cases hrec : sweep_over_metrics_loop hff amc texts rest (index + 1)
          { st with hooks := [] } with
      | mk stF' res =>
        cases res with
        | error e => rw [hrec] at h; simp at h
        | ok rest_dfs =>
          rw [hrec] at h
          simp only [Prod.mk.injEq, Except.ok.injEq] at h
          rcases ih (index + 1) _ _ _ hrec with ⟨_, hst, _⟩ | hhooks
          · exact Or.inr (h.1 ▸ hst ▸ rfl)
          · exact Or.inr (h.1 ▸ hhooks)

theorem sweep_over_metrics_loop_error {σ F R E : Type}
    (hff : List (RichPrompt σ) → List (σ × F))
    (amc : List (σ × F) → List String → Except E (List R))
    (texts : List String) :
    ∀ (rps : List (List (RichPrompt σ))) (index : Nat) (st stF : ModelState σ F)
      (e : E),
      sweep_over_metrics_loop hff amc texts rps index st = (stF, Except.error e) →
      ∃ rp ∈ rps, stF.hooks = hff rp ∧ amc (hff rp) texts = Except.error e := by
  intro rps
  induction rps with
  | nil =>
    intro index st stF e h
    simp [sweep_over_metrics_loop] at h
  | cons rp rest ih =>
    intro index st stF e h
    simp only [sweep_over_metrics_loop] at h
    cases hamc : amc ([] ++ hff rp) texts with
    | error e' =>
      rw [hamc] at h
      simp only [Prod.mk.injEq, Except.error.injEq] at h
      refine ⟨rp, List.mem_cons_self rp rest, ?_, ?_⟩
      · rw [← h.1]
        simp
      · rw [List.nil_append] at hamc
        rw [hamc, h.2]
    | ok patched_df =>
      rw [hamc] at h
      cases hrec : sweep_over_metrics_loop hff amc texts rest (index + 1)
          { st with hooks := [] } with
      | mk stF' res =>
        cases res with
        | error e' =>
          rw [hrec] at h
          simp only [Prod.mk.injEq, Except.error.injEq] at h
          rcases ih (index + 1) _ _ _ (h.1 ▸ h.2 ▸ hrec) with ⟨r, hr, hh⟩
          exact ⟨r, List.mem_cons_of_mem rp hr, hh⟩
        | ok rest_dfs =>
          rw [hrec] at h
          simp at h

theorem sweep_over_metrics_loop_store {σ F R E : Type}
    (hff : List (RichPrompt σ) → List (σ × F))
    (amc : List (σ × F) → List String → Except E (List R))
    (texts : List String) :
    ∀ (rps : List (List (RichPrompt σ))) (index : Nat) (st : ModelState σ F),
      (sweep_over_metrics_loop hff amc texts rps index st).1.store = st.store := by
  intro rps
  induction rps with
  | nil => intro index st; rfl
  | cons rp rest ih =>
    intro index st
    simp only [sweep_over_metrics_loop]
    cases hamc : amc ([] ++ hff rp) texts with
    | error e => rfl
    | ok patched_df =>
      cases hrec : sweep_over_metrics_loop hff amc texts rest (index + 1)
          { st with hooks := [] } with
      | mk stF' res =>
        have := ih (index + 1) { st with hooks := [] }
        rw [hrec] at this
        cases res with
        | error e => exact this
        | ok rest_dfs => exact this

/-- C2 (amended): in `sweep_over_metrics`, whenever the call returns
normally the model's hook mapping has been restored to empty; but when the
wrapped metric call raises, the error propagates to the caller unchanged
with the hooks compiled for the current descriptor set still installed
(there is no `try/finally`, so removal does not happen on the error
path). -/
theorem sweep_over_metrics_hook_cleanup {σ F R E : Type}
    (hff : List (RichPrompt σ) → List (σ × F))
    (amc : List (σ × F) → List String → Except E (List R))
    (texts : List String) (st : ModelState σ F) :
    (∀ stF out, sweep_over_metrics hff amc texts st = (stF, Except.ok out) →
      stF.hooks = []) ∧
    (∀ stF e, sweep_over_metrics hff amc texts st =
        (stF, Except.error (PandasError.raised e)) →
      ∃ rp ∈ st.store, stF.hooks = hff rp ∧
        amc (hff rp) texts = Except.error e) := by
  constructor
  · intro stF out h
    unfold sweep_over_metrics at h
    cases hloop : sweep_over_metrics_loop hff amc texts st.store 0 st with
    | mk stL res =>
      rw [hloop] at h
      cases res with
      | error e => simp at h
      | ok patched_list =>
        cases patched_list with
        | nil => simp at h
        | cons d ds =>
          simp only [Prod.mk.injEq] at h
          rcases sweep_over_metrics_loop_ok hff amc texts _ _ _ _ _ hloop with
            ⟨_, _, hdfs⟩ | hhooks
          · exact absurd hdfs (by simp)
          · exact h.1 ▸ hhooks
  · intro stF e h
    unfold sweep_over_metrics at h
    cases hloop : sweep_over_metrics_loop hff amc texts st.store 0 st with
    | mk stL res =>
      rw [hloop] at h
      cases res with
      | error e' =>
        simp only [Prod.mk.injEq, Except.error.injEq, PandasError.raised.injEq] at h
        exact h.1 ▸ h.2 ▸
          sweep_over_metrics_loop_error hff amc texts _ _ _ _ _ hloop
      | ok patched_list =>
        cases patched_list with
        | nil => simp at h
        | cons d ds => simp at h

def c2set : List (RichPrompt Nat) :=
  [{ coeff := 1, act_name := 0, content := RPContent.phrase "A" }]

def c2hff : List (RichPrompt Nat) → List (Nat × Nat) := fun _ => [(0, 7)]

def c2st : ModelState Nat Nat := { hooks := [], store := [c2set] }

def c2amcFail : List (Nat × Nat) → List String → Except String (List Nat) :=
  fun _ _ => Except.error "boom"

def c2amcOk : List (Nat × Nat) → List String → Except String (List Nat) :=
  fun _ _ => Except.ok [3]

/-- C2 counterexample: a metric-only sweep whose wrapped metric call
raises exits with the error propagated but the model's hook mapping still
holding the hooks installed for the failing descriptor set — the mapping
is not restored to empty on this exit path. -/
theorem sweep_over_metrics_error_leaves_hooks :
    (sweep_over_metrics c2hff c2amcFail ["t"] c2st).1.hooks = [(0, 7)] ∧
    (sweep_over_metrics c2hff c2amcFail ["t"] c2st).2 =
      Except.error (PandasError.raised "boom") ∧
    [(0, 7)] ≠ ([] : List (Nat × Nat)) :=
  ⟨rfl, rfl, by decide⟩

/-- Witness for C2 (amended) on the normal-return path at a concrete
input. -/
theorem sweep_over_metrics_hook_cleanup_witness :
    (sweep_over_metrics c2hff c2amcOk ["t"] c2st).1.hooks = [] :=
  (sweep_over_metrics_hook_cleanup c2hff c2amcOk ["t"] c2st).1
    (sweep_over_metrics c2hff c2amcOk ["t"] c2st).1 [(3, 0)] (by rfl)

/-- One row of a completion `DataFrame`: the `prompts` column and the
generated `completions` text column. -/
structure CompletionRow where
  prompts : String
  completions : String
deriving DecidableEq, Repr

/-- Rows produced by one batch generation call: one completion row per
element of the prompt batch, the completion text supplied by the external
sampler as a function of the installed hook mapping, the prompt and the
trial position in the batch. -/
def genRows {σ F : Type} (sampler : List (σ × F) → String → Nat → String)
    (hook_fns : List (σ × F)) (prompt_batch : List String) :
    List CompletionRow :=
  (prompt_batch.enumFrom 0).map fun ip =>
    { prompts := ip.2, completions := sampler hook_fns ip.2 ip.1 }

/-- Modelled from the spec: `gen_using_hooks` of
`algebraic_value_editing.completion_utils` (repository code not under
`src/`): run one batch generation inside an Intervention Session — clear
any pre-existing hooks, install the given hook mapping, generate one
completion row per batch element through the external sampler, and remove
all hooks on exit (the session guarantees removal), returning the new
hook-free state and the rows. -/
def gen_using_hooks {σ F : Type}
    (sampler : List (σ × F) → String → Nat → String)
    (hook_fns : List (σ × F)) (prompt_batch : List String)
    (st : ModelState σ F) : ModelState σ F × List CompletionRow :=
  ({ st with hooks := [] }, genRows sampler hook_fns prompt_batch)

/-- Modelled from the spec: `gen_using_rich_prompts` of
`completion_utils` (not under `src/`): compile the descriptor set into a
hook mapping (the Hook Compiler, passed as the parameter
`hook_fns_from_rich_prompts`) and generate under it within a session. -/
def gen_using_rich_prompts {σ F : Type}
    (sampler : List (σ × F) → String → Nat → String)
    (hook_fns_from_rich_prompts : List (RichPrompt σ) → List (σ × F))
    (rich_prompts : List (RichPrompt σ)) (prompt_batch : List String)
    (st : ModelState σ F) : ModelState σ F × List CompletionRow :=
  gen_using_hooks sampler (hook_fns_from_rich_prompts rich_prompts)
    prompt_batch st

/-- Inner loop of `sweep_over_prompts` (sweeps.py lines 182-196): for one
prompt, iterate over the descriptor sets with `enumerate`, generate
`num_patched` completions per set inside a session, and tag each produced
row with the set's positional index (`rich_prompt_index`). -/
def sweep_over_prompts_inner {σ F : Type}
    (sampler : List (σ × F) → String → Nat → String)
    (hook_fns_from_rich_prompts : List (RichPrompt σ) → List (σ × F))
    (prompt : String) (num_patched : Nat) :
    List (List (RichPrompt σ)) → Nat → ModelState σ F →
      ModelState σ F × List (List (CompletionRow × Nat))
  | [], _, st => (st, [])
  | rich_prompts_this :: rest, index, st =>
    let g := gen_using_rich_prompts sampler hook_fns_from_rich_prompts
      rich_prompts_this (List.replicate num_patched prompt) st
    let tagged := g.2.map fun r => (r, index)
    let rec_res := sweep_over_prompts_inner sampler hook_fns_from_rich_prompts
      prompt num_patched rest (index + 1) g.1
    (rec_res.1, tagged :: rec_res.2)

/-- Outer loop of `sweep_over_prompts` (sweeps.py lines 164-196) for a
materialized (re-iterable) `rich_prompts` sequence, read from the state's
store: per prompt, generate `num_normal` baseline completions with the
empty hook mapping, then run the inner loop over all descriptor sets
(`tqdm(rich_prompts)` restarts from the beginning for a list). -/
def sweep_over_prompts_outer {σ F : Type}
    (sampler : List (σ × F) → String → Nat → String)
    (hook_fns_from_rich_prompts : List (RichPrompt σ) → List (σ × F))
    (num_normal num_patched : Nat) :
    List String → ModelState σ F →
      ModelState σ F × List (List CompletionRow) ×
        List (List (CompletionRow × Nat))
  | [], st => (st, [], [])
  | prompt :: rest, st =>
    let g := gen_using_hooks sampler [] (List.replicate num_normal prompt) st
    let inner_res := sweep_over_prompts_inner sampler hook_fns_from_rich_prompts
      prompt num_patched g.1.store 0 g.1
    let rec_res := sweep_over_prompts_outer sampler hook_fns_from_rich_prompts
      num_normal num_patched rest inner_res.1
    (rec_res.1, g.2 :: rec_res.2.1, inner_res.2 ++ rec_res.2.2)

/-- Embedding of `sweep_over_prompts` (sweeps.py lines 114-204) for a
materialized descriptor-set sequence: run the nested loops, then
concatenate the baseline frames and the patched frames (`pd.concat`
raises `ValueError` on an empty list, normal frames first; the
`.reset_index` calls only add a positional `completion_index` column and
the optional `metrics_dict` post-processing of the two final tables is
not modelled — the properties verified here do not involve metric
columns). -/
def sweep_over_prompts {σ F : Type}
    (sampler : List (σ × F) → String → Nat → String)
    (hook_fns_from_rich_prompts : List (RichPrompt σ) → List (σ × F))
    (prompts : List String) (num_normal num_patched : Nat)
    (st : ModelState σ F) :
    ModelState σ F × Except (PandasError Empty)
      (List CompletionRow × List (CompletionRow × Nat)) :=
  let res := sweep_over_prompts_outer sampler hook_fns_from_rich_prompts
    num_normal num_patched prompts st
  match res.2.1 with
  | [] => (res.1, Except.error PandasError.emptyConcat)
  | _ =>
    match res.2.2 with
    | [] => (res.1, Except.error PandasError.emptyConcat)
    | _ => (res.1, Except.ok (res.2.1.flatten, res.2.2.flatten))

/-- Outer loop of `sweep_over_prompts` under the single-pass iterator
protocol: when the `rich_prompts` argument is an iterator rather than a
list, the inner `for index, x in enumerate(tqdm(rich_prompts))` loop
consumes the shared iterator, so after the first prompt it is exhausted
and every later prompt iterates over nothing (`enumerate` restarts at 0
each time, but there is nothing left to number).  The cursor argument
holds the iterator's remaining elements. -/
def sweep_over_prompts_iter_outer {σ F : Type}
    (sampler : List (σ × F) → String → Nat → String)
    (hook_fns_from_rich_prompts : List (RichPrompt σ) → List (σ × F))
    (num_normal num_patched : Nat) :
    List String → List (List (RichPrompt σ)) → ModelState σ F →
      ModelState σ F × List (List (RichPrompt σ)) ×
        List (List CompletionRow) × List (List (CompletionRow × Nat))
  | [], cursor, st => (st, cursor, [], [])
  | prompt :: rest, cursor, st =>
    let g := gen_using_hooks sampler [] (List.replicate num_normal prompt) st
    let inner_res := sweep_over_prompts_inner sampler hook_fns_from_rich_prompts
      prompt num_patched cursor 0 g.1
    let rec_res := sweep_over_prompts_iter_outer sampler
      hook_fns_from_rich_prompts num_normal num_patched rest [] inner_res.1
    (rec_res.1, rec_res.2.1, g.2 :: rec_res.2.2.1,
      inner_res.2 ++ rec_res.2.2.2)

theorem length_genRows {σ F : Type}
    (sampler : List (σ × F) → String → Nat → String)
    (hook_fns : List (σ × F)) (prompt_batch : List String) :
    (genRows sampler hook_fns prompt_batch).length = prompt_batch.length := by
  simp [genRows]

theorem flatten_flatMap {α γ : Type} (l : List α) (f : α → List (List γ)) :
    (l.flatMap f).flatten = l.flatMap fun a => (f a).flatten := by
  induction l with
  | nil => rfl
  | cons x xs ih => simp [List.flatMap_cons, List.flatten_append, ih]

theorem length_flatMap_const {α γ : Type} (l : List α) (f : α → List γ)
    (k : Nat) (h : ∀ x ∈ l, (f x).length = k) :
    (l.flatMap f).length = l.length * k := by
  induction l with
  | nil => simp
  | cons x xs ih =>
    simp only [List.flatMap_cons, List.length_append, List.length_cons]
    rw [h x (List.mem_cons_self x xs),
      ih fun z hz => h z (List.mem_cons_of_mem x hz), Nat.succ_mul]
    omega

theorem filter_flatMap {α γ : Type} (l : List α) (f : α → List γ)
    (p : γ → Bool) :
    (l.flatMap f).filter p = l.flatMap fun a => (f a).filter p := by
  induction l with
  | nil => rfl
  | cons x xs ih => simp [List.flatMap_cons, List.filter_append, ih]

theorem sweep_over_prompts_inner_snd {σ F : Type}
    (sampler : List (σ × F) → String → Nat → String)
    (hff : List (RichPrompt σ) → List (σ × F))
    (prompt : String) (num_patched : Nat) :
    ∀ (sets : List (List (RichPrompt σ))) (index : Nat) (st : ModelState σ F),
      (sweep_over_prompts_inner sampler hff prompt num_patched sets index st).2 =
        (sets.enumFrom index).map fun is =>
          (genRows sampler (hff is.2) (List.replicate num_patched prompt)).map
            fun r => (r, is.1) := by
  intro sets
  induction sets with
  | nil => intro index st; rfl
  | cons s rest ih =>
    intro index st
    simp only [sweep_over_prompts_inner, gen_using_rich_prompts,
      gen_using_hooks, List.enumFrom_cons, List.map_cons]
    exact congrArg _ (ih (index + 1) _)

theorem sweep_over_prompts_inner_store {σ F : Type}
    (sampler : List (σ × F) → String → Nat → String)
    (hff : List (RichPrompt σ) → List (σ × F))
    (prompt : String) (num_patched : Nat) :
    ∀ (sets : List (List (RichPrompt σ))) (index : Nat) (st : ModelState σ F),
      (sweep_over_prompts_inner sampler hff prompt num_patched sets
        index st).1.store = st.store := by
  intro sets
  induction sets with
  | nil => intro index st; rfl
  | cons s rest ih =>
    intro index st
    simp only [sweep_over_prompts_inner, gen_using_rich_prompts,
      gen_using_hooks]
    exact ih (index + 1) _

theorem sweep_over_prompts_outer_store {σ F : Type}
    (sampler : List (σ × F) → String → Nat → String)
    (hff : List (RichPrompt σ) → List (σ × F)) (num_normal num_patched : Nat) :
    ∀ (prompts : List String) (st : ModelState σ F),
      (sweep_over_prompts_outer sampler hff num_normal num_patched
        prompts st).1.store = st.store := by
  intro prompts
  induction prompts with
  | nil => intro st; rfl
  | cons p rest ih =>
    intro st
    simp only [sweep_over_prompts_outer]
    rw [ih]
    rw [sweep_over_prompts_inner_store]
    rfl

theorem sweep_over_prompts_outer_normal {σ F : Type}
    (sampler : List (σ × F) → String → Nat → String)
    (hff : List (RichPrompt σ) → List (σ × F)) (num_normal num_patched : Nat) :
    ∀ (prompts : List String) (st : ModelState σ F),
      (sweep_over_prompts_outer sampler hff num_normal num_patched
        prompts st).2.1 =
        prompts.map fun p => genRows sampler [] (List.replicate num_normal p) := by
  intro prompts
  induction prompts with
  | nil => intro st; rfl
  | cons p rest ih =>
    intro st
    simp only [sweep_over_prompts_outer, gen_using_hooks, List.map_cons]
    exact congrArg _ (ih _)

theorem sweep_over_prompts_outer_patched {σ F : Type}
    (sampler : List (σ × F) → String → Nat → String)
    (hff : List (RichPrompt σ) → List (σ × F)) (num_normal num_patched : Nat) :
    ∀ (prompts : List String) (st : ModelState σ F),
      (sweep_over_prompts_outer sampler hff num_normal num_patched
        prompts st).2.2 =
        prompts.flatMap fun p => (st.store.enumFrom 0).map fun is =>
          (genRows sampler (hff is.2) (List.replicate num_patched p)).map
            fun r => (r, is.1) := by
  intro prompts
  induction prompts with
  | nil => intro st; rfl
  | cons p rest ih =>
    intro st
    simp only [sweep_over_prompts_outer, List.flatMap_cons]
    rw [sweep_over_prompts_inner_snd, ih, sweep_over_prompts_inner_store]
    rfl

theorem length_taggedRows {σ F : Type}
    (sampler : List (σ × F) → String → Nat → String)
    (hff : List (RichPrompt σ) → List (σ × F)) (p : String) (M : Nat)
    (sets : List (List (RichPrompt σ))) (start : Nat) :
    ((sets.enumFrom start).flatMap fun is =>
      (genRows sampler (hff is.2) (List.replicate M p)).map
        fun r => (r, is.1)).length = sets.length * M := by
  rw [length_flatMap_const _ _ M, List.enumFrom_length]
  intro is _
  simp [length_genRows]

theorem filter_taggedRows {σ F : Type}
    (sampler : List (σ × F) → String → Nat → String)
    (hff : List (RichPrompt σ) → List (σ × F)) (p : String) (M i : Nat) :
    ∀ (sets : List (List (RichPrompt σ))) (start : Nat),
      (((sets.enumFrom start).flatMap fun is =>
        (genRows sampler (hff is.2) (List.replicate M p)).map
          fun r => (r, is.1)).filter fun rn => rn.2 = i).length =
        if start ≤ i ∧ i < start + sets.length then M else 0 := by
  intro sets
  induction sets with
  | nil =>
    intro start
    simp only [List.length_nil]
    rw [if_neg (by omega)]
    rfl
  | cons s ss ih =>
    intro start
    simp only [List.enumFrom_cons, List.flatMap_cons, List.filter_append,
      List.length_append, List.length_cons]
    rw [ih (start + 1)]
    by_cases hsi : start = i
    · subst hsi
      have hhead : (((genRows sampler (hff s) (List.replicate M p)).map
          fun r => (r, start)).filter fun rn => rn.2 = start).length = M := by
        rw [List.filter_map]
        simp [Function.comp_def, length_genRows]
      rw [hhead, if_neg (by omega), if_pos (by omega)]
      omega
    · have hhead : (((genRows sampler (hff s) (List.replicate M p)).map
          fun r => (r, start)).filter fun rn => rn.2 = i).length = 0 := by
        rw [List.filter_map]
        simp [Function.comp_def, hsi]
      rw [hhead]
      by_cases hin : start + 1 ≤ i ∧ i < start + 1 + ss.length
      · rw [if_pos hin, if_pos (by omega)]
        omega
      · rw [if_neg hin, if_neg (by omega)]

theorem mem_taggedRows {σ F : Type}
    (sampler : List (σ × F) → String → Nat → String)
    (hff : List (RichPrompt σ) → List (σ × F)) (p : String) (M : Nat) :
    ∀ (sets : List (List (RichPrompt σ))) (start : Nat)
      (rn : CompletionRow × Nat),
      rn ∈ ((sets.enumFrom start).flatMap fun is =>
        (genRows sampler (hff is.2) (List.replicate M p)).map
          fun r => (r, is.1)) →
      start ≤ rn.2 ∧ rn.2 < start + sets.length := by
  intro sets
  induction sets with
  | nil =>
    intro start rn h
    simp at h
  | cons s ss ih =>
    intro start rn h
    simp only [List.enumFrom_cons, List.flatMap_cons, List.mem_append] at h
    rcases h with h | h
    · rcases List.mem_map.mp h with ⟨r, _, rfl⟩
      simp only [List.length_cons]
      omega
    · have := ih (start + 1) rn h
      simp only [List.length_cons]
      omega

theorem sweep_over_prompts_ok_components {σ F : Type}
    (sampler : List (σ × F) → String → Nat → String)
    (hff : List (RichPrompt σ) → List (σ × F)) (prompts : List String)
    (num_normal num_patched : Nat) (st stF : ModelState σ F)
    (normal : List CompletionRow) (patched : List (CompletionRow × Nat))
    (h : sweep_over_prompts sampler hff prompts num_normal num_patched st =
      (stF, Except.ok (normal, patched))) :
    normal = (sweep_over_prompts_outer sampler hff num_normal num_patched
      prompts st).2.1.flatten ∧
    patched = (sweep_over_prompts_outer sampler hff num_normal num_patched
      prompts st).2.2.flatten := by
  simp only [sweep_over_prompts] at h
  cases h1 : (sweep_over_prompts_outer sampler hff num_normal num_patched
      prompts st).2.1 with
  | nil => rw [h1] at h; simp at h
  | cons a as =>
    rw [h1] at h
    cases h2 : (sweep_over_prompts_outer sampler hff num_normal num_patched
        prompts st).2.2 with
    | nil => rw [h2] at h; simp at h
    | cons b bs =>
      rw [h2] at h
      simp only [Prod.mk.injEq, Except.ok.injEq] at h
      exact ⟨h.2.1.symm, h.2.2.symm⟩

/-- C3: whenever a completion sweep returns its two tables, the baseline
table is exactly `num_normal_completions` rows per prompt generated under
the empty hook mapping (no hooks active), and the patched table is exactly
`num_patched_completions` rows per prompt per descriptor set, each row
tagged (`rich_prompt_index`) with the positional index of its set, every
tag in range and each index appearing exactly
`|prompts| * num_patched_completions` times.  The concrete end-to-end
scenario of the claim is the accompanying witness. -/
theorem sweep_over_prompts_row_counts {σ F : Type}
    (sampler : List (σ × F) → String → Nat → String)
    (hff : List (RichPrompt σ) → List (σ × F)) (prompts : List String)
    (num_normal num_patched : Nat) (st stF : ModelState σ F)
    (normal : List CompletionRow) (patched : List (CompletionRow × Nat))
    (h : sweep_over_prompts sampler hff prompts num_normal num_patched st =
      (stF, Except.ok (normal, patched))) :
    normal = (prompts.flatMap fun p =>
      genRows sampler [] (List.replicate num_normal p)) ∧
    normal.length = prompts.length * num_normal ∧
    patched = (prompts.flatMap fun p => (st.store.enumFrom 0).flatMap fun is =>
      (genRows sampler (hff is.2) (List.replicate num_patched p)).map
        fun r => (r, is.1)) ∧
    patched.length = prompts.length * (st.store.length * num_patched) ∧
    (∀ i < st.store.length,
      (patched.filter fun rn => rn.2 = i).length =
        prompts.length * num_patched) ∧
    (∀ rn ∈ patched, rn.2 < st.store.length) := by
  obtain ⟨hn, hp⟩ := sweep_over_prompts_ok_components sampler hff prompts
    num_normal num_patched st stF normal patched h
  have hn' : normal = prompts.flatMap fun p =>
      genRows sampler [] (List.replicate num_normal p) := by
    rw [hn, sweep_over_prompts_outer_normal]
    rfl
  have hp' : patched = prompts.flatMap fun p =>
      (st.store.enumFrom 0).flatMap fun is =>
        (genRows sampler (hff is.2) (List.replicate num_patched p)).map
          fun r => (r, is.1) := by
    rw [hp, sweep_over_prompts_outer_patched, flatten_flatMap]
    rfl
  refine ⟨hn', ?_, hp', ?_, ?_, ?_⟩
  · rw [hn', length_flatMap_const _ _ num_normal]
    intro p _
    simp [length_genRows]
  · rw [hp', length_flatMap_const _ _ (st.store.length * num_patched)]
    intro p _
    exact length_taggedRows sampler hff p num_patched st.store 0
  · intro i hi
    rw [hp', filter_flatMap, length_flatMap_const _ _ num_patched]
    intro p _
    rw [filter_taggedRows sampler hff p num_patched i st.store 0,
      if_pos (by omega)]
  · intro rn hrn
    rw [hp'] at hrn
    rcases List.mem_flatMap.mp hrn with ⟨p, _, hm⟩
    have := mem_taggedRows sampler hff p num_patched st.store 0 rn hm
    omega

def c3rows : List (MRPRow Nat) :=
  [{ rich_prompts :=
      [{ coeff := 1 * 1, act_name := 0, content := RPContent.phrase "A" },
       { coeff := -1 * 1, act_name := 0, content := RPContent.phrase "B" }]
     phrases := [("A", 1), ("B", -1)], act_name := 0, coeff := 1 },
   { rich_prompts :=
      [{ coeff := 1 * 10, act_name := 0, content := RPContent.phrase "A" },
       { coeff := -1 * 10, act_name := 0, content := RPContent.phrase "B" }]
     phrases := [("A", 1), ("B", -1)], act_name := 0, coeff := 10 },
   { rich_prompts :=
      [{ coeff := 1 * 1, act_name := 5, content := RPContent.phrase "A" },
       { coeff := -1 * 1, act_name := 5, content := RPContent.phrase "B" }]
     phrases := [("A", 1), ("B", -1)], act_name := 5, coeff := 1 },
   { rich_prompts :=
      [{ coeff := 1 * 10, act_name := 5, content := RPContent.phrase "A" },
       { coeff := -1 * 10, act_name := 5, content := RPContent.phrase "B" }]
     phrases := [("A", 1), ("B", -1)], act_name := 5, coeff := 10 }]

def c3sampler : List (Nat × Nat) → String → Nat → String := fun _ _ _ => "out"

def c3hff : List (RichPrompt Nat) → List (Nat × Nat) := fun _ => []

def c3st : ModelState Nat Nat :=
  { hooks := [], store := c3rows.map fun r => r.rich_prompts }

def c3row : CompletionRow := { prompts := "p", completions := "out" }

def c3normal : List CompletionRow := [c3row, c3row]

def c3patched : List (CompletionRow × Nat) :=
  [(c3row, 0), (c3row, 0), (c3row, 1), (c3row, 1),
   (c3row, 2), (c3row, 2), (c3row, 3), (c3row, 3)]

/-- Witness for C3: the end-to-end scenario of the claim — the builder
applied to phrase-group `[[("A", 1), ("B", -1)]]`, sites `[0, 5]` and
coefficients `[1, 10]` yields 4 descriptor sets, and the completion sweep
over 1 prompt with 2 baseline and 2 intervened trials yields 2 baseline
rows and 8 intervened rows, each of the 4 descriptor-set indices
appearing exactly twice. -/
theorem sweep_over_prompts_row_counts_witness :
    (make_rich_prompts [[("A", 1), ("B", -1)]] [0, 5] [1, 10] false none =
      Except.ok c3rows) ∧
    c3rows.length = 4 ∧
    c3normal.length = 1 * 2 ∧
    c3patched.length = 1 * (4 * 2) ∧
    ((c3patched.filter fun rn => rn.2 = 0).length = 1 * 2) ∧
    ((c3patched.filter fun rn => rn.2 = 1).length = 1 * 2) ∧
    ((c3patched.filter fun rn => rn.2 = 2).length = 1 * 2) ∧
    ((c3patched.filter fun rn => rn.2 = 3).length = 1 * 2) := by
  have h := sweep_over_prompts_row_counts c3sampler c3hff ["p"] 2 2 c3st
    (sweep_over_prompts c3sampler c3hff ["p"] 2 2 c3st).1 c3normal c3patched
    (by rfl)
  exact ⟨rfl, rfl, h.2.1, h.2.2.2.1, h.2.2.2.2.1 0 (by decide),
    h.2.2.2.2.1 1 (by decide), h.2.2.2.2.1 2 (by decide),
    h.2.2.2.2.1 3 (by decide)⟩

theorem sweep_over_prompts_fst {σ F : Type}
    (sampler : List (σ × F) → String → Nat → String)
    (hff : List (RichPrompt σ) → List (σ × F)) (prompts : List String)
    (num_normal num_patched : Nat) (st : ModelState σ F) :
    (sweep_over_prompts sampler hff prompts num_normal num_patched st).1 =
      (sweep_over_prompts_outer sampler hff num_normal num_patched
        prompts st).1 := by
  simp only [sweep_over_prompts]
  cases (sweep_over_prompts_outer sampler hff num_normal num_patched
      prompts st).2.1 with
  | nil => rfl
  | cons a as =>
    cases (sweep_over_prompts_outer sampler hff num_normal num_patched
        prompts st).2.2 with
    | nil => rfl
    | cons b bs => rfl

theorem sweep_over_metrics_fst {σ F R E : Type}
    (hff : List (RichPrompt σ) → List (σ × F))
    (amc : List (σ × F) → List String → Except E (List R))
    (texts : List String) (st : ModelState σ F) :
    (sweep_over_metrics hff amc texts st).1 =
      (sweep_over_metrics_loop hff amc texts st.store 0 st).1 := by
  simp only [sweep_over_metrics]
  cases (sweep_over_metrics_loop hff amc texts st.store 0 st) with
  | mk stL res =>
    cases res with
    | error e => rfl
    | ok patched_list =>
      cases patched_list with
      | nil => rfl
      | cons d ds => rfl

/-- C8: both sweep operations are read-only with respect to their
descriptor-set input: the store cell holding the `rich_prompts` lists (and
the descriptors inside them) is identical before and after either call,
on every input and every exit path; the output tables are fresh values
assembled from the generation/metric results. -/
theorem sweep_operations_store_readonly {σ F R E : Type}
    (sampler : List (σ × F) → String → Nat → String)
    (hff : List (RichPrompt σ) → List (σ × F)) (prompts : List String)
    (num_normal num_patched : Nat) (st : ModelState σ F)
    (hffm : List (RichPrompt σ) → List (σ × F))
    (amc : List (σ × F) → List String → Except E (List R))
    (texts : List String) (st' : ModelState σ F) :
    (sweep_over_prompts sampler hff prompts num_normal num_patched st).1.store
      = st.store ∧
    (sweep_over_metrics hffm amc texts st').1.store = st'.store := by
  constructor
  · rw [sweep_over_prompts_fst, sweep_over_prompts_outer_store]
  · rw [sweep_over_metrics_fst, sweep_over_metrics_loop_store]

theorem sweep_over_prompts_iter_exhausted {σ F : Type}
    (sampler : List (σ × F) → String → Nat → String)
    (hff : List (RichPrompt σ) → List (σ × F)) (num_normal num_patched : Nat) :
    ∀ (prompts : List String) (st : ModelState σ F),
      (sweep_over_prompts_iter_outer sampler hff num_normal num_patched
        prompts [] st).2.2.2 = [] := by
  intro prompts
  induction prompts with
  | nil => intro st; rfl
  | cons p rest ih =>
    intro st
    simp only [sweep_over_prompts_iter_outer, sweep_over_prompts_inner]
    rw [List.nil_append]
    exact ih _

/-- C9: `sweep_over_prompts` re-evaluates `tqdm(rich_prompts)` inside the
loop over prompts.  With a materialized sequence, every prompt yields the
tagged rows of every descriptor set; under the single-pass iterator
protocol, the first prompt consumes the whole iterator and every later
prompt contributes zero intervened trial frames. -/
theorem sweep_over_prompts_iteration_protocol {σ F : Type}
    (sampler : List (σ × F) → String → Nat → String)
    (hff : List (RichPrompt σ) → List (σ × F)) (num_normal num_patched : Nat)
    (prompts : List String) (st : ModelState σ F) :
    ((sweep_over_prompts_outer sampler hff num_normal num_patched
      prompts st).2.2 =
      prompts.flatMap fun p => (st.store.enumFrom 0).map fun is =>
        (genRows sampler (hff is.2) (List.replicate num_patched p)).map
          fun r => (r, is.1)) ∧
    (∀ (prompt : String) (rest : List String)
      (cursor : List (List (RichPrompt σ))) (st' : ModelState σ F),
      (sweep_over_prompts_iter_outer sampler hff num_normal num_patched
        (prompt :: rest) cursor st').2.2.2 =
        (cursor.enumFrom 0).map fun is =>
          (genRows sampler (hff is.2) (List.replicate num_patched prompt)).map
            fun r => (r, is.1)) ∧
    (∀ (prompts' : List String) (st'' : ModelState σ F),
      (sweep_over_prompts_iter_outer sampler hff num_normal num_patched
        prompts' [] st'').2.2.2 = []) := by
  refine ⟨sweep_over_prompts_outer_patched sampler hff num_normal num_patched
    prompts st, ?_, sweep_over_prompts_iter_exhausted sampler hff
      num_normal num_patched⟩
  intro prompt rest cursor st'
  simp only [sweep_over_prompts_iter_outer]
  rw [sweep_over_prompts_inner_snd,
    sweep_over_prompts_iter_exhausted, List.append_nil]

/-- One row of the baseline table fed to `reduce_sweep_results`: the
`prompts` group key, the non-numeric columns (raw text such as
completions), and the numeric columns (metric values, positional
indices). -/
structure NormalRow where
  prompts : String
  textCols : List String
  numCols : List ℚ
deriving DecidableEq, Repr

/-- One row of the intervened table fed to `reduce_sweep_results`: as
`NormalRow` plus the `rich_prompt_index` back-reference. -/
structure PatchedRow where
  prompts : String
  rich_prompt_index : Nat
  textCols : List String
  numCols : List ℚ
deriving DecidableEq, Repr

def vecAdd (v w : List ℚ) : List ℚ := List.zipWith (· + ·) v w

/-- Columnwise sum of a table's numeric-column vectors. -/
def sumVecs : List (List ℚ) → List ℚ
  | [] => []
  | [v] => v
  | v :: w :: rest => vecAdd v (sumVecs (w :: rest))

/-- Columnwise arithmetic mean, as pandas `.mean()` computes it for each
numeric column of a group. -/
def meanVecs (vs : List (List ℚ)) : List ℚ :=
  (sumVecs vs).map fun x => x / (vs.length : ℚ)

/-- pandas `groupby(["prompts", "rich_prompt_index"]).mean(numeric_only=True)`
(sweeps.py lines 285-287): one output row per distinct group key, holding
the arithmetic mean of every numeric column over the group's rows;
non-numeric columns are dropped by `numeric_only=True`.  (pandas sorts the
resulting key index; the embedding keeps another duplicate-free order of
the same keys, immaterial to the verified properties.) -/
def groupbyMeanPatched (rows : List PatchedRow) :
    List ((String × Nat) × List ℚ) :=
  ((rows.map fun r => (r.prompts, r.rich_prompt_index)).dedup).map fun k =>
    (k, meanVecs ((rows.filter fun r =>
      (r.prompts, r.rich_prompt_index) = k).map fun r => r.numCols))

/-- pandas `groupby(["prompts"]).mean(numeric_only=True)` (sweeps.py line
291) for the baseline table, keyed by prompt only. -/
def groupbyMeanNormal (rows : List NormalRow) : List (String × List ℚ) :=
  ((rows.map fun r => r.prompts).dedup).map fun k =>
    (k, meanVecs ((rows.filter fun r => r.prompts = k).map fun r => r.numCols))

/-- Embedding of `reduce_sweep_results` (sweeps.py lines 275-292): group
the intervened rows by `(prompts, rich_prompt_index)` and average the
numeric columns, left-join the provenance table on the
`rich_prompt_index` level against its positional index
(`reduced_df.join(rich_prompts_df, on="rich_prompt_index")`; a key beyond
the table yields missing values, hence `Option`), group the baseline rows
by `prompts` alone, and return the baseline aggregate and the joined
aggregate (`reset_index` only moves the group keys back into columns). -/
def reduce_sweep_results {σ : Type} (normal_df : List NormalRow)
    (patched_df : List PatchedRow) (rich_prompts_df : List (MRPRow σ)) :
    List (String × List ℚ) ×
      List ((String × Nat) × List ℚ × Option (MRPRow σ)) :=
  let reduced_df := groupbyMeanPatched patched_df
  let reduced_joined_df := reduced_df.map fun kv =>
    (kv.1, kv.2, rich_prompts_df[kv.1.2]?)
  let reduced_normal_df := groupbyMeanNormal normal_df
  (reduced_normal_df, reduced_joined_df)

theorem sumVecs_length {k : Nat} :
    ∀ (vs : List (List ℚ)), vs ≠ [] → (∀ v ∈ vs, v.length = k) →
      (sumVecs vs).length = k
  | [], h, _ => absurd rfl h
  | [v], _, hall => hall v (List.mem_cons_self v [])
  | v :: w :: rest, _, hall => by
    have htail := sumVecs_length (k := k) (w :: rest) (by simp)
      fun z hz => hall z (List.mem_cons_of_mem v hz)
    simp only [sumVecs, vecAdd, List.length_zipWith, htail,
      hall v (List.mem_cons_self v (w :: rest))]
    exact Nat.min_self k

theorem sumVecs_getElem? {k : Nat} :
    ∀ (vs : List (List ℚ)), vs ≠ [] → (∀ v ∈ vs, v.length = k) →
      ∀ j, j < k → (sumVecs vs)[j]? =
        some ((vs.map fun v => v.getD j 0).sum)
  | [], h, _ => absurd rfl h
  | [v], _, hall => by
    intro j hj
    have hv := hall v (List.mem_cons_self v [])
    have hjv : j < v.length := hv ▸ hj
    simp only [sumVecs, List.map_cons, List.map_nil, List.sum_cons,
      List.sum_nil, add_zero]
    rw [List.getElem?_eq_getElem hjv]
    simp [List.getD_eq_getElem?_getD, List.getElem?_eq_getElem hjv]
  | v :: w :: rest, _, hall => by
    intro j hj
    have hv := hall v (List.mem_cons_self v (w :: rest))
    have hjv : j < v.length := hv ▸ hj
    have htail := sumVecs_getElem? (k := k) (w :: rest) (by simp)
      (fun z hz => hall z (List.mem_cons_of_mem v hz)) j hj
    show (vecAdd v (sumVecs (w :: rest)))[j]? = _
    unfold vecAdd
    rw [List.getElem?_zipWith]
    rw [List.getElem?_eq_getElem hjv, htail]
    have hvg : v.getD j 0 = v[j] := by
      rw [List.getD_eq_getElem?_getD, List.getElem?_eq_getElem hjv]
      rfl
    simp [hvg, List.getElem?_eq_getElem hjv]

theorem meanVecs_length {k : Nat} (vs : List (List ℚ)) (hne : vs ≠ [])
    (hall : ∀ v ∈ vs, v.length = k) : (meanVecs vs).length = k := by
  simp only [meanVecs, List.length_map]
  exact sumVecs_length vs hne hall

theorem meanVecs_getElem? {k : Nat} (vs : List (List ℚ)) (hne : vs ≠ [])
    (hall : ∀ v ∈ vs, v.length = k) (j : Nat) (hj : j < k) :
    (meanVecs vs)[j]? =
      some ((vs.map fun v => v.getD j 0).sum / (vs.length : ℚ)) := by
  simp only [meanVecs, List.getElem?_map]
  rw [sumVecs_getElem? vs hne hall j hj]
  rfl

theorem grouped_mean_facts {α κ : Type} [DecidableEq κ] (rows : List α)
    (key : α → κ) (ncols : α → List ℚ) (k : Nat)
    (hall : ∀ r ∈ rows, (ncols r).length = k) (k0 : κ)
    (hk0 : k0 ∈ rows.map key) :
    (meanVecs ((rows.filter fun r => key r = k0).map ncols)).length = k ∧
    ∀ j < k, (meanVecs ((rows.filter fun r => key r = k0).map ncols))[j]? =
      some (((rows.filter fun r => key r = k0).map
          fun r => (ncols r).getD j 0).sum /
        ((rows.filter fun r => key r = k0).length : ℚ)) := by
  obtain ⟨r0, hr0, hkey⟩ := List.mem_map.mp hk0
  have hr0f : r0 ∈ rows.filter fun r => key r = k0 :=
    List.mem_filter.mpr ⟨hr0, by simp [hkey]⟩
  have hne : (rows.filter fun r => key r = k0).map ncols ≠ [] := by
    simp only [ne_eq, List.map_eq_nil_iff]
    exact List.ne_nil_of_mem hr0f
  have hlens : ∀ v ∈ (rows.filter fun r => key r = k0).map ncols,
      v.length = k := by
    intro v hv
    obtain ⟨r, hr, rfl⟩ := List.mem_map.mp hv
    exact hall r (List.mem_filter.mp hr).1
  constructor
  · exact meanVecs_length _ hne hlens
  · intro j hj
    rw [meanVecs_getElem? _ hne hlens j hj, List.map_map, List.length_map]
    rfl

/-- C4: `reduce_sweep_results` groups the intervened rows by
`(prompt, descriptor-set index)` and the baseline rows by prompt alone,
takes the arithmetic mean of exactly the numeric columns within each group
(the non-numeric text columns are excluded), joins the intervened
aggregate against the provenance table on the descriptor-set index
(picking up the provenance row at that positional index, with its
phrases/site/coefficient columns), producing one joined row per distinct
`(prompt, descriptor-set)` group, and returns the baseline aggregate
separately, keyed by prompt only. -/
theorem reduce_sweep_results_spec {σ : Type} (k : Nat)
    (normal_df : List NormalRow) (patched_df : List PatchedRow)
    (rich_prompts_df : List (MRPRow σ))
    (hn : ∀ r ∈ normal_df, r.numCols.length = k)
    (hp : ∀ r ∈ patched_df, r.numCols.length = k) :
    (((reduce_sweep_results normal_df patched_df rich_prompts_df).2.map
      fun e => e.1).Nodup) ∧
    (∀ key0, (∃ e ∈ (reduce_sweep_results normal_df patched_df
        rich_prompts_df).2, e.1 = key0) ↔
      key0 ∈ patched_df.map fun r => (r.prompts, r.rich_prompt_index)) ∧
    (∀ e ∈ (reduce_sweep_results normal_df patched_df rich_prompts_df).2,
      e.2.1.length = k ∧
      (∀ j < k, e.2.1[j]? = some
        (((patched_df.filter fun r =>
            (r.prompts, r.rich_prompt_index) = e.1).map
          fun r => r.numCols.getD j 0).sum /
        ((patched_df.filter fun r =>
            (r.prompts, r.rich_prompt_index) = e.1).length : ℚ))) ∧
      e.2.2 = rich_prompts_df[e.1.2]?) ∧
    (((reduce_sweep_results normal_df patched_df rich_prompts_df).1.map
      fun e => e.1).Nodup) ∧
    (∀ p0, (∃ e ∈ (reduce_sweep_results normal_df patched_df
        rich_prompts_df).1, e.1 = p0) ↔
      p0 ∈ normal_df.map fun r => r.prompts) ∧
    (∀ e ∈ (reduce_sweep_results normal_df patched_df rich_prompts_df).1,
      e.2.length = k ∧
      (∀ j < k, e.2[j]? = some
        (((normal_df.filter fun r => r.prompts = e.1).map
          fun r => r.numCols.getD j 0).sum /
        ((normal_df.filter fun r => r.prompts = e.1).length : ℚ)))) := by
  have hrj : (reduce_sweep_results normal_df patched_df rich_prompts_df).2 =
      ((patched_df.map fun r => (r.prompts, r.rich_prompt_index)).dedup).map
        fun k0 => (k0,
          meanVecs ((patched_df.filter fun r =>
            (r.prompts, r.rich_prompt_index) = k0).map fun r => r.numCols),
          rich_prompts_df[k0.2]?) := by
    simp only [reduce_sweep_results, groupbyMeanPatched, List.map_map]
    rfl
  have hrn : (reduce_sweep_results normal_df patched_df rich_prompts_df).1 =
      ((normal_df.map fun r => r.prompts).dedup).map
        fun k0 => (k0,
          meanVecs ((normal_df.filter fun r =>
            r.prompts = k0).map fun r => r.numCols)) := rfl
  refine ⟨?_, ?_, ?_, ?_, ?_, ?_⟩
  · rw [hrj, List.map_map]
    simpa [Function.comp_def] using
      List.nodup_dedup (patched_df.map fun r => (r.prompts, r.rich_prompt_index))
  · intro key0
    constructor
    · rintro ⟨e, he, rfl⟩
      rw [hrj] at he
      obtain ⟨k0, hk0, rfl⟩ := List.mem_map.mp he
      exact List.mem_dedup.mp hk0
    · intro hmem
      refine ⟨(key0,
        meanVecs ((patched_df.filter fun r =>
          (r.prompts, r.rich_prompt_index) = key0).map fun r => r.numCols),
        rich_prompts_df[key0.2]?), ?_, rfl⟩
      rw [hrj]
      exact List.mem_map_of_mem _ (List.mem_dedup.mpr hmem)
  · intro e he
    rw [hrj] at he
    obtain ⟨k0, hk0, rfl⟩ := List.mem_map.mp he
    have hfacts := grouped_mean_facts patched_df
      (fun r => (r.prompts, r.rich_prompt_index)) (fun r => r.numCols) k hp
      k0 (List.mem_dedup.mp hk0)
    exact ⟨hfacts.1, hfacts.2, rfl⟩
  · rw [hrn]
    simpa [Function.comp_def] using
      List.nodup_dedup (normal_df.map fun r => r.prompts)
  · intro p0
    constructor
    · rintro ⟨e, he, rfl⟩
      rw [hrn] at he
      obtain ⟨k0, hk0, rfl⟩ := List.mem_map.mp he
      exact List.mem_dedup.mp hk0
    · intro hmem
      refine ⟨(p0,
        meanVecs ((normal_df.filter fun r =>
          r.prompts = p0).map fun r => r.numCols)), ?_, rfl⟩
      rw [hrn]
      exact List.mem_map_of_mem _ (List.mem_dedup.mpr hmem)
  · intro e he
    rw [hrn] at he
    obtain ⟨k0, hk0, rfl⟩ := List.mem_map.mp he
    have hfacts := grouped_mean_facts normal_df (fun r => r.prompts)
      (fun r => r.numCols) k hn k0 (List.mem_dedup.mp hk0)
    exact ⟨hfacts.1, hfacts.2⟩

def c4normal : List NormalRow :=
  [{ prompts := "p", textCols := ["x"], numCols := [2] },
   { prompts := "p", textCols := ["y"], numCols := [4] }]

def c4patched : List PatchedRow :=
  [{ prompts := "p", rich_prompt_index := 0, textCols := ["t"], numCols := [1] },
   { prompts := "p", rich_prompt_index := 0, textCols := ["u"], numCols := [3] }]

def c4provenance : List (MRPRow Nat) :=
  [{ rich_prompts := [], phrases := [("A", 1)], act_name := 0, coeff := 1 }]

/-- Witness for C4 at a concrete pair of two-trial tables with one metric
column. -/
theorem reduce_sweep_results_spec_witness :
    (((reduce_sweep_results c4normal c4patched c4provenance).2.map
      fun e => e.1).Nodup) ∧
    (∃ e ∈ (reduce_sweep_results c4normal c4patched c4provenance).2,
      e.1 = ("p", 0)) :=
  ⟨(reduce_sweep_results_spec 1 c4normal c4patched c4provenance
      (by decide) (by decide)).1,
   ((reduce_sweep_results_spec 1 c4normal c4patched c4provenance
      (by decide) (by decide)).2.1 ("p", 0)).mpr (by simp [c4patched])⟩

end AVESweeps
